import Mathlib

/-!
Verification of the Sonar Rover visualizer core (tools/visualizer/).

The Python sources keep a bounded, insertion-ordered point buffer
(`collections.deque(maxlen = max_points)`), hand an age-filtered snapshot of it
to the renderer each frame, smooth the incoming distance stream with a
median-of-window filter, color points through a precomputed piecewise-linear
gradient, and (in demo mode) synthesize readings by a step-wise ray cast
against a procedural environment.

This file embeds those operations shallowly: Python floats become `ℚ`
(arithmetic on the values exercised here is exact), the deque becomes a
`List` with explicit overflow dropping, mutable objects become explicit
state records, and random samples (`random.gauss`) become explicit
parameters so that their influence can be quantified over.
-/

namespace SonarRover

/-- A stored point as the radar/lidar visualizers keep it in their deque:
`(x, y, dist, timestamp)` with `timestamp` the `time.time()` value at append. -/
structure RPoint where
  x : ℚ
  y : ℚ
  dist : ℚ
  t : ℚ
  deriving DecidableEq, Repr

/-- The last `m` elements of `l` (all of `l` when `l` is no longer than `m`). -/
def listTakeLast (m : ℕ) (l : List α) : List α :=
  l.drop (l.length - m)

/-- One `deque(maxlen = m).append p` (radar.py line 67, pointcloud.py line 37,
lidar.py line 36, sonar_radar.py line 55): the new element goes on the right
and the deque discards from the left until at most `m` elements remain — for a
deque already holding `m` elements, exactly the single oldest entry. -/
def bufAppend (m : ℕ) (b : List α) (p : α) : List α :=
  listTakeLast m (b ++ [p])

/-- The buffer obtained by appending the points `ps` in order into an empty
`deque(maxlen = m)`. -/
def bufFromList (m : ℕ) (ps : List RPoint) : List RPoint :=
  ps.foldl (bufAppend m) []

/-- The visible snapshot built in `RadarVisualizer.update_plot` (radar.py lines
204-210), `PointCloudScanner.update_display` and `LidarVisualizer.update_display`:
walk the buffer in insertion order and keep the points whose age `now - t` is
strictly below the lifetime. -/
def visiblePoints (now lifetime : ℚ) (buf : List RPoint) : List RPoint :=
  buf.filter (fun p => decide (now - p.t < lifetime))

/-- The point set `SonarRadar.draw_points` (sonar_radar.py lines 134-160)
actually draws: first the `while ... popleft()` loop removes the expired prefix
(`age > POINT_LIFETIME`, the lifetime being 8 seconds), then each remaining
point is drawn unless its alpha `max 0 (1 - age/8)` is `≤ 0`. -/
def sonarRadarDrawn (now : ℚ) (buf : List RPoint) : List RPoint :=
  (buf.dropWhile (fun p => decide ((8 : ℚ) < now - p.t))).filter
    (fun p => decide ((0 : ℚ) < max 0 (1 - (now - p.t) / 8)))

/-! ### Buffer lemmas -/

theorem listTakeLast_length (m : ℕ) (l : List α) :
    (listTakeLast m l).length = min m l.length := by
  rw [listTakeLast, List.length_drop]
  omega

theorem listTakeLast_append_absorb (m : ℕ) (l ps : List α) :
    listTakeLast m (listTakeLast m l ++ ps) = listTakeLast m (l ++ ps) := by
  unfold listTakeLast
  have hk : l.length - m ≤ l.length := Nat.sub_le _ _
  rw [← List.drop_append_of_le_length hk, List.drop_drop]
  congr 1
  simp only [List.length_drop, List.length_append]
  omega

theorem bufAppend_length_le (m : ℕ) (b : List α) (p : α) :
    (bufAppend m b p).length ≤ m := by
  rw [bufAppend, listTakeLast_length]
  exact Nat.min_le_left _ _

/-- Folding `bufAppend` keeps exactly the last `m` elements of everything seen. -/
theorem foldl_bufAppend (m : ℕ) (ps : List α) :
    ∀ b : List α, b.length ≤ m →
      List.foldl (bufAppend m) b ps = listTakeLast m (b ++ ps) := by
  induction ps with
  | nil =>
    intro b hb
    simp [listTakeLast, Nat.sub_eq_zero_of_le hb]
  | cons p ps ih =>
    intro b hb
    rw [List.foldl_cons, ih _ (bufAppend_length_le m b p), bufAppend,
      listTakeLast_append_absorb]
    simp

/-- **C1.** For every capacity `max_points` and every sequence of appends, the
point buffer holds at most `max_points` points at every intermediate state
(after any prefix of the appends). -/
theorem buffer_capacity_invariant (m : ℕ) (ps : List RPoint) (i : ℕ) :
    (bufFromList m (ps.take i)).length ≤ m := by
  rw [bufFromList, foldl_bufAppend m _ [] (by simp), List.nil_append,
    listTakeLast_length]
  exact Nat.min_le_left _ _

/-- **C3.** Appending `k > max_points` points `p₁ … p_k` in order evicts
oldest-first: the buffer ends up holding exactly the last `max_points` points in
their original relative order, and its oldest remaining point is
`p_{k - max_points + 1}`. -/
theorem fifo_eviction (m : ℕ) (ps : List RPoint) (hk : m < ps.length) :
    bufFromList m ps = ps.drop (ps.length - m) ∧
    (0 < m → (bufFromList m ps).head? = ps[ps.length - m]?) := by
  have h : bufFromList m ps = ps.drop (ps.length - m) := by
    rw [bufFromList, foldl_bufAppend m _ [] (by simp), List.nil_append,
      listTakeLast]
  exact ⟨h, fun _ => by rw [h, List.head?_drop]⟩

/-- Five concrete points, as in the spec scenario `max_points = 3`, five
single-point readings. -/
def demoPoints5 : List RPoint :=
  [⟨1, 1, 10, 1⟩, ⟨2, 2, 20, 2⟩, ⟨3, 3, 30, 3⟩, ⟨4, 4, 40, 4⟩, ⟨5, 5, 50, 5⟩]

theorem fifo_eviction_witness :
    3 < demoPoints5.length ∧
      (bufFromList 3 demoPoints5 = demoPoints5.drop (demoPoints5.length - 3) ∧
        (0 < 3 → (bufFromList 3 demoPoints5).head? =
          demoPoints5[demoPoints5.length - 3]?)) :=
  ⟨by decide, fifo_eviction 3 demoPoints5 (by decide)⟩

/-- Filtering after dropping a prefix of elements the filter would reject
anyway sees the same list. -/
theorem filter_dropWhile_of_imp (p q : α → Bool) (l : List α)
    (h : ∀ x, q x = true → p x = false) :
    (l.dropWhile q).filter p = l.filter p := by
  induction l with
  | nil => rfl
  | cons a l ih =>
    by_cases hq : q a = true
    · rw [List.dropWhile_cons_of_pos hq, ih, List.filter_cons, h a hq]
      simp
    · rw [List.dropWhile_cons_of_neg hq]

/-- **C2.** The snapshot handed to the renderer contains exactly the stored
points with `now - created_at < lifetime`, in original insertion order (it is a
sublist of the buffer); the sonar_radar variant, which first pops the expired
prefix and then skips points whose alpha underflows, draws exactly the same set
for its 8-second lifetime. -/
theorem visible_snapshot_exact (buf : List RPoint) (now L : ℚ) :
    (∀ p : RPoint, p ∈ visiblePoints now L buf ↔ p ∈ buf ∧ now - p.t < L) ∧
    (visiblePoints now L buf).Sublist buf ∧
    sonarRadarDrawn now buf = visiblePoints now 8 buf := by
  refine ⟨fun p => ?_, List.filter_sublist _, ?_⟩
  · simp [visiblePoints]
  · rw [sonarRadarDrawn, visiblePoints]
    have hpred : ∀ p : RPoint,
        (decide ((0 : ℚ) < max 0 (1 - (now - p.t) / 8))) =
          (decide (now - p.t < 8)) := by
      intro p
      refine decide_eq_decide.mpr ?_
      constructor
      · intro h0
        rcases lt_max_iff.mp h0 with h | h
        · exact absurd h (lt_irrefl 0)
        · have h8 : (now - p.t) / 8 < 1 := by linarith
          have := (div_lt_one (by norm_num : (0:ℚ) < 8)).mp h8
          linarith
      · intro h
        refine lt_max_iff.mpr (Or.inr ?_)
        have h8 : (now - p.t) / 8 < 1 :=
          (div_lt_one (by norm_num : (0:ℚ) < 8)).mpr h
        linarith
    have := filter_dropWhile_of_imp
      (fun p : RPoint => decide (now - p.t < 8))
      (fun p : RPoint => decide ((8 : ℚ) < now - p.t)) buf
      (fun x hx => by
        simp only [decide_eq_true_eq] at hx
        simp only [decide_eq_false_iff_not, not_lt]
        linarith)
    calc (buf.dropWhile (fun p => decide ((8 : ℚ) < now - p.t))).filter
          (fun p => decide ((0 : ℚ) < max 0 (1 - (now - p.t) / 8)))
        = (buf.dropWhile (fun p => decide ((8 : ℚ) < now - p.t))).filter
          (fun p => decide (now - p.t < 8)) := by
          apply List.filter_congr
          intro x _
          exact hpred x
      _ = buf.filter (fun p => decide (now - p.t < 8)) := this

/-! ### SonarPulse reading filter (sonar_pulse.py) -/

/-- The clamp applied at the top of `SonarPulse.add_reading` (line 142):
`dist = max(2, min(dist, self.max_dist * 1.1))`. -/
def spClamp (maxd d : ℚ) : ℚ :=
  max 2 (min d (maxd * 11 / 10))

/-- The window push of `SonarPulse.add_reading` (lines 145-147): append on the
right, then `pop(0)` once if the length exceeds `history_size = 5`. -/
def spPush (hist : List ℚ) (d : ℚ) : List ℚ :=
  let h1 := hist ++ [d]
  if 5 < h1.length then h1.drop 1 else h1

/-- The filter-relevant state of a `SonarPulse`: the sliding window
`reading_history`, the emitted filtered target `target_dist` and `scan_count`. -/
structure SPState where
  history : List ℚ
  target : ℚ
  scanCount : ℕ
  deriving DecidableEq, Repr

/-- State after `__init__`: empty window, `target_dist = 100.0`, no scans. -/
def spInit : SPState :=
  { history := [], target := 100, scanCount := 0 }

/-- `SonarPulse.add_reading(dist)` (lines 133-159): bump `scan_count`, clamp the
distance, push it into the 5-sample window, and emit the middle element of the
sorted window (`sorted_history[len(sorted_history) // 2]`) as `target_dist`.
(Python's `sorted` and `List.insertionSort` both produce the unique `≤`-sorted
permutation of the window, so the two agree element for element.) -/
def spAddReading (maxd : ℚ) (s : SPState) (d : ℚ) : SPState :=
  let dist := spClamp maxd d
  let h2 := spPush s.history dist
  let sorted := List.insertionSort (· ≤ ·) h2
  { history := h2
    target := sorted.getD (h2.length / 2) 0
    scanCount := s.scanCount + 1 }

/-- The filter state after feeding the raw samples `ds` in order to a freshly
constructed `SonarPulse`. -/
def spRun (maxd : ℚ) (ds : List ℚ) : SPState :=
  ds.foldl (spAddReading maxd) spInit

/-- `m` is a median of `l`: it occurs in `l`, at least half of `l` is `≤ m`,
and at least half of `l` is `≥ m`. -/
def isMedian (l : List ℚ) (m : ℚ) : Prop :=
  m ∈ l ∧ l.length ≤ 2 * l.countP (fun x => decide (x ≤ m)) ∧
    l.length ≤ 2 * l.countP (fun x => decide (m ≤ x))

/-! ### DepthScanner reading intake (depth_scanner.py) -/

/-- The scalar state of a `DepthScanner` that `add_reading` touches besides the
pixel buffers: `last_dist`, `scan_count` and the sweep position `scan_x`. -/
structure DSState where
  lastDist : ℚ
  scanCount : ℕ
  scanX : ℕ
  deriving DecidableEq, Repr

/-- State after `DepthScanner.__init__`. -/
def dsInit : DSState :=
  { lastDist := 0, scanCount := 0, scanX := 0 }

/-- `DepthScanner.add_reading(dist)` (lines 102-149) on the scalar state: a
non-positive distance is replaced by `max_dist` (`if dist <= 0: dist =
self.max_dist`) and processing continues — `last_dist` takes the substituted
value, `scan_count` increments, and the scan column advances by `scan_speed`
pixels modulo the display width (the column itself is then painted with the
substituted distance's color). -/
def dsAddReading (maxd : ℚ) (width scanSpeed : ℕ) (s : DSState) (d : ℚ) :
    DSState :=
  let dist := if d ≤ 0 then maxd else d
  { lastDist := dist
    scanCount := s.scanCount + 1
    scanX := (s.scanX + scanSpeed) % width }

/-! ### Median lemmas -/

theorem sorted_countP_le_self (s : List ℚ) (hs : s.Sorted (· ≤ ·)) (i : ℕ)
    (hi : i < s.length) :
    i + 1 ≤ s.countP (fun x => decide (x ≤ s[i])) := by
  have hsub : (s.take (i + 1)).countP (fun x => decide (x ≤ s[i])) ≤
      s.countP (fun x => decide (x ≤ s[i])) :=
    (List.take_sublist _ _).countP_le _
  have hall : ∀ a ∈ s.take (i + 1), (fun x => decide (x ≤ s[i])) a = true := by
    intro a ha
    obtain ⟨j, hj, hja⟩ := List.mem_iff_getElem.mp ha
    have hj' : j < s.length := lt_of_lt_of_le hj (by simp [List.length_take])
    have hji : j ≤ i := by
      have := hj
      simp [List.length_take] at this
      omega
    have : s[j] ≤ s[i] := by
      have := hs.rel_get_of_le (a := ⟨j, hj'⟩) (b := ⟨i, hi⟩) hji
      simpa [List.get_eq_getElem] using this
    rw [← hja]
    simpa [List.getElem_take] using this
  have heq : (s.take (i + 1)).countP (fun x => decide (x ≤ s[i])) =
      (s.take (i + 1)).length := List.countP_eq_length.mpr hall
  have hlen : (s.take (i + 1)).length = i + 1 := by
    simp [List.length_take]
    omega
  omega

theorem sorted_countP_ge_self (s : List ℚ) (hs : s.Sorted (· ≤ ·)) (i : ℕ)
    (hi : i < s.length) :
    s.length - i ≤ s.countP (fun x => decide (s[i] ≤ x)) := by
  have hsub : (s.drop i).countP (fun x => decide (s[i] ≤ x)) ≤
      s.countP (fun x => decide (s[i] ≤ x)) :=
    (List.drop_sublist _ _).countP_le _
  have hall : ∀ a ∈ s.drop i, (fun x => decide (s[i] ≤ x)) a = true := by
    intro a ha
    obtain ⟨j, hj, hja⟩ := List.mem_iff_getElem.mp ha
    have hij : i + j < s.length := by
      have := hj
      simp [List.length_drop] at this
      omega
    have : s[i] ≤ s[i + j] := by
      have := hs.rel_get_of_le (a := ⟨i, hi⟩) (b := ⟨i + j, hij⟩)
        (by simp)
      simpa [List.get_eq_getElem] using this
    rw [← hja]
    simpa [List.getElem_drop] using this
  have heq : (s.drop i).countP (fun x => decide (s[i] ≤ x)) =
      (s.drop i).length := List.countP_eq_length.mpr hall
  have hlen : (s.drop i).length = s.length - i := by simp
  omega

/-- The middle element of the sorted copy of a nonempty list is a median of the
list. -/
theorem insertionSort_middle_isMedian (l : List ℚ) (hl : l ≠ []) :
    isMedian l ((List.insertionSort (· ≤ ·) l).getD (l.length / 2) 0) := by
  have hperm : List.Perm (List.insertionSort (· ≤ ·) l) l :=
    List.perm_insertionSort _ l
  have hsort : List.Sorted (· ≤ ·) (List.insertionSort (· ≤ ·) l) :=
    List.sorted_insertionSort _ l
  have hlen : (List.insertionSort (· ≤ ·) l).length = l.length := hperm.length_eq
  have hn : 0 < l.length := List.length_pos.mpr hl
  have hi : l.length / 2 < (List.insertionSort (· ≤ ·) l).length := by
    rw [hlen]
    exact Nat.div_lt_self hn (by norm_num)
  have hgetD : (List.insertionSort (· ≤ ·) l).getD (l.length / 2) 0 =
      (List.insertionSort (· ≤ ·) l)[l.length / 2] := by
    simp [List.getD_eq_getElem?_getD, List.getElem?_eq_getElem hi]
  have hdm := Nat.div_add_mod l.length 2
  have hmod : l.length % 2 < 2 := Nat.mod_lt _ (by norm_num)
  refine ⟨?_, ?_, ?_⟩
  · rw [hgetD]
    exact hperm.mem_iff.mp (List.getElem_mem hi)
  · rw [hgetD]
    have h1 := sorted_countP_le_self _ hsort (l.length / 2) hi
    have h2 := (hperm.countP_eq
      (fun x => decide (x ≤ (List.insertionSort (· ≤ ·) l)[l.length / 2]))).symm
    omega
  · rw [hgetD]
    have h1 := sorted_countP_ge_self _ hsort (l.length / 2) hi
    have h2 := (hperm.countP_eq
      (fun x => decide ((List.insertionSort (· ≤ ·) l)[l.length / 2] ≤ x))).symm
    rw [hlen] at h1
    omega

/-! ### SonarPulse window evolution -/

theorem spPush_eq_bufAppend (hist : List ℚ) (d : ℚ) (h : hist.length ≤ 5) :
    spPush hist d = bufAppend 5 hist d := by
  simp only [spPush, bufAppend, listTakeLast]
  split
  · rename_i h5
    have h6 : (hist ++ [d]).length - 5 = 1 := by
      simp only [List.length_append, List.length_cons, List.length_nil] at h5 ⊢
      omega
    rw [h6]
  · rename_i h5
    have h0 : (hist ++ [d]).length - 5 = 0 := by
      simp only [List.length_append, List.length_cons, List.length_nil] at h5 ⊢
      omega
    rw [h0, List.drop_zero]

theorem spPush_ne_nil (hist : List ℚ) (d : ℚ) : spPush hist d ≠ [] := by
  simp only [spPush]
  split
  · rename_i h5
    intro hcontra
    have hlen := congrArg List.length hcontra
    simp only [List.length_drop, List.length_append, List.length_cons,
      List.length_nil] at hlen h5
    omega
  · simp

theorem spRun_history_aux (maxd : ℚ) (ds : List ℚ) :
    ∀ s : SPState, s.history.length ≤ 5 →
      (List.foldl (spAddReading maxd) s ds).history =
        List.foldl (bufAppend 5) s.history (ds.map (spClamp maxd)) := by
  induction ds with
  | nil => intro s _; rfl
  | cons d ds ih =>
    intro s h
    rw [List.foldl_cons, List.map_cons, List.foldl_cons]
    have hh : (spAddReading maxd s d).history = bufAppend 5 s.history (spClamp maxd d) :=
      spPush_eq_bufAppend _ _ h
    rw [ih _ (by rw [hh]; exact bufAppend_length_le _ _ _), hh]

/-- **C7.** The reading filter keeps a sliding window of at most 5 samples —
after any input sequence the window holds exactly the (clamped) last
`min 5 k` samples in arrival order, oldest evicted first — and after every push
the emitted filtered target (`target_dist`) is a median of the current window
contents: it occurs in the window, at least half the window is `≤` it and at
least half is `≥` it. -/
theorem median_filter_window (maxd : ℚ) (ds : List ℚ) :
    (spRun maxd ds).history = (ds.map (spClamp maxd)).drop (ds.length - 5) ∧
    (spRun maxd ds).history.length ≤ 5 ∧
    (ds ≠ [] → isMedian (spRun maxd ds).history (spRun maxd ds).target) := by
  have hh : (spRun maxd ds).history = (ds.map (spClamp maxd)).drop (ds.length - 5) := by
    rw [spRun, spRun_history_aux maxd ds spInit (by simp [spInit])]
    show List.foldl (bufAppend 5) [] (ds.map (spClamp maxd)) = _
    rw [foldl_bufAppend 5 _ [] (by simp), List.nil_append, listTakeLast,
      List.length_map]
  refine ⟨hh, ?_, ?_⟩
  · rw [hh]
    simp only [List.length_drop, List.length_map]
    omega
  · intro hne
    obtain ⟨es, d, hds⟩ := (List.eq_nil_or_concat ds).resolve_left hne
    subst hds
    rw [spRun, List.concat_eq_append, List.foldl_append, List.foldl_cons,
      List.foldl_nil]
    have hne2 : (spAddReading maxd (List.foldl (spAddReading maxd) spInit es) d).history ≠ [] :=
      spPush_ne_nil _ _
    exact insertionSort_middle_isMedian _ hne2

/-! ### Non-positive readings (C4, C6) -/

theorem spClamp_nonpos (maxd d : ℚ) (hm : 0 ≤ maxd) (hd : d ≤ 0) :
    spClamp maxd d = 2 := by
  rw [spClamp]
  have h0 : (0 : ℚ) ≤ maxd * 11 / 10 := by positivity
  rw [min_eq_left (by linarith)]
  exact max_eq_left (by linarith)

/-- **C4 (amended).** A reading with non-positive distance is not ignored:
`DepthScanner.add_reading` substitutes `max_dist` for it and processes it as a
normal maximum-range return (`last_dist` becomes `max_dist`, `scan_count`
increments, the scan column advances and is painted), and
`SonarPulse.add_reading` clamps it to 2 and feeds it to the filter (the window
gains the element 2 and `scan_count` increments). -/
theorem nonpositive_reading_processed (maxd : ℚ) (width scanSpeed : ℕ)
    (s : DSState) (s2 : SPState) (d : ℚ) (hm : 0 ≤ maxd) (hd : d ≤ 0) :
    dsAddReading maxd width scanSpeed s d =
      ⟨maxd, s.scanCount + 1, (s.scanX + scanSpeed) % width⟩ ∧
    (spAddReading maxd s2 d).history = spPush s2.history 2 ∧
    (spAddReading maxd s2 d).scanCount = s2.scanCount + 1 := by
  refine ⟨?_, ?_, rfl⟩
  · rw [dsAddReading]
    simp [hd]
  · show spPush s2.history (spClamp maxd d) = spPush s2.history 2
    rw [spClamp_nonpos maxd d hm hd]

/-- **C4 (counterexample to the claim as stated).** `add_reading(-5)` on a
fresh `DepthScanner` (defaults `max_dist = 200`, `width = 500`,
`scan_speed = 3`) does not leave the state unchanged: the scan counter becomes
1 and `last_dist` becomes 200, i.e. the reading was processed, not ignored. -/
theorem nonpositive_ignored_cex :
    (dsAddReading 200 500 3 dsInit (-5)).scanCount = 1 ∧
    (dsAddReading 200 500 3 dsInit (-5)).lastDist = 200 ∧
    dsInit.scanCount = 0 ∧ dsInit.lastDist = 0 := by
  refine ⟨rfl, ?_, rfl, rfl⟩
  show (if (-5 : ℚ) ≤ 0 then (200 : ℚ) else -5) = 200
  norm_num

/-- **C6 (amended).** A zero or negative sample does enter the sliding window:
`SonarPulse.add_reading` clamps it to `max(2, min(d, max_dist * 1.1))= 2` and
pushes that element into the window. -/
theorem nonpositive_enters_window (maxd d : ℚ) (s : SPState) (hm : 0 ≤ maxd)
    (hd : d ≤ 0) :
    (spAddReading maxd s d).history = spPush s.history 2 := by
  show spPush s.history (spClamp maxd d) = spPush s.history 2
  rw [spClamp_nonpos maxd d hm hd]

theorem nonpositive_enters_window_witness :
    (spAddReading 150 spInit (-5)).history = spPush spInit.history 2 :=
  nonpositive_enters_window 150 (-5) spInit (by norm_num) (by norm_num)

/-- **C6 (counterexample to the claim as stated).** Feeding the sample `-5` to
a fresh `SonarPulse` (default `max_dist = 150`) changes the window: it becomes
`[2]`, which contains the element derived from the rejected sample by the
clamp `max(2, min(-5, 165)) = 2`. -/
theorem window_nonpositive_cex :
    (spAddReading 150 spInit (-5)).history = [2] ∧ spInit.history = [] ∧
    spClamp 150 (-5) = 2 := by
  refine ⟨?_, rfl, ?_⟩
  · show spPush spInit.history (spClamp 150 (-5)) = [2]
    norm_num [spClamp, spPush, spInit]
  · norm_num [spClamp]

theorem nonpositive_reading_processed_witness :
    dsAddReading 200 500 3 dsInit (-5) = ⟨200, dsInit.scanCount + 1, (dsInit.scanX + 3) % 500⟩ ∧
    (spAddReading 150 spInit (-5)).history = spPush spInit.history 2 ∧
    (spAddReading 150 spInit (-5)).scanCount = spInit.scanCount + 1 := by
  have h1 := nonpositive_reading_processed 200 500 3 dsInit spInit (-5)
    (by norm_num) (by norm_num)
  have h2 := nonpositive_reading_processed 150 500 3 dsInit spInit (-5)
    (by norm_num) (by norm_num)
  exact ⟨h1.1, h2.2.1, h2.2.2⟩

/-! ### Viewport clamping (C5) -/

/-- The point placement of `PointCloudScanner.add_reading` (pointcloud.py lines
146-165): each scattered sub-point `(base_x + spread_x, base_y + spread_y)` is
clamped onto the screen by `px = max(10, min(self.width - 10, px))` and
`py = max(10, min(self.height - 50, py))`, with the screen fixed at
`width = 1200`, `height = 700`. -/
def pcStoredPoint (baseX baseY spreadX spreadY : ℚ) : ℚ × ℚ :=
  (max 10 (min (1200 - 10) (baseX + spreadX)),
   max 10 (min (700 - 50) (baseY + spreadY)))

/-- One stored sub-point of `LidarVisualizer.add_reading` (lidar.py lines
221-240): the guard accepts `0 < dist_cm ≤ max_dist`, each sub-point jitters
the heading and distance (`sinA`, `cosA` are the sine/cosine of the jittered
heading, `noise` the distance jitter), and the point `(d sinA, d cosA)` is
stored whenever `d = dist_cm + noise > 0` — with no clamping of `x` or `y`. -/
def lidarStoredPoint (maxd sinA cosA dist noise : ℚ) : Option (ℚ × ℚ × ℚ) :=
  if dist ≤ 0 ∨ maxd < dist then none
  else if 0 < dist + noise then
    some ((dist + noise) * sinA, (dist + noise) * cosA, dist + noise)
  else none

/-- The axes viewport configured in `LidarVisualizer.__init__` (lines 59-60):
`xlim (-max_dist, max_dist)`, `ylim (-max_dist * 0.3, max_dist)`. -/
def lidarInViewport (maxd x y : ℚ) : Prop :=
  -maxd ≤ x ∧ x ≤ maxd ∧ -(maxd * 3 / 10) ≤ y ∧ y ≤ maxd

/-- **C5 (amended).** Only the pseudo-3D mode clamps: every point
`PointCloudScanner.add_reading` stores lies inside its 1200×700 viewport
(indeed inside `[10, 1190] × [10, 650]`), for every base position and every
scatter offset. The radar and lidar modes store their polar projections
unclamped (see the counterexample). -/
theorem pointcloud_clamps_viewport (baseX baseY spreadX spreadY : ℚ) :
    10 ≤ (pcStoredPoint baseX baseY spreadX spreadY).1 ∧
    (pcStoredPoint baseX baseY spreadX spreadY).1 ≤ 1200 - 10 ∧
    10 ≤ (pcStoredPoint baseX baseY spreadX spreadY).2 ∧
    (pcStoredPoint baseX baseY spreadX spreadY).2 ≤ 700 - 50 := by
  refine ⟨le_max_left _ _, ?_, le_max_left _ _, ?_⟩
  · exact max_le (by norm_num) (min_le_left _ _)
  · exact max_le (by norm_num) (min_le_left _ _)

/-- **C5 (counterexample to the claim as stated).** The lidar accepts the
reading `heading = 180°, dist_cm = 100` (within `max_dist = 250`) and, with
zero jitter (`sin 180° = 0`, `cos 180° = -1`), stores the point `(0, -100)` —
whose `y` lies below the configured viewport floor `-max_dist·0.3 = -75`.
Coordinates are not clamped before storage. -/
theorem lidar_viewport_cex :
    lidarStoredPoint 250 0 (-1) 100 0 = some (0, -100, 100) ∧
    ¬ lidarInViewport 250 0 (-100) := by
  constructor
  · rw [lidarStoredPoint]
    norm_num
  · rw [lidarInViewport]
    push_neg
    intro _ _
    norm_num

/-! ### Color gradient (sonar_pulse.py `_build_gradient`, depth_scanner.py
`dist_to_color`) -/

/-- An RGB color with integer channels, as sonar_pulse.py keeps them. -/
abbrev Color := ℤ × ℤ × ℤ

/-- Python `int(x)`: truncation toward zero. -/
def pyInt (x : ℚ) : ℤ :=
  if 0 ≤ x then ⌊x⌋ else ⌈x⌉

/-- The per-segment interpolation of `_build_gradient` (lines 100-103):
`local_t = (t - t1)/(t2 - t1) if t2 > t1 else 0`, then each channel is
`int(c1 + (c2 - c1) * local_t)`. -/
def interpColor (t1 : ℚ) (c1 : Color) (t2 : ℚ) (c2 : Color) (t : ℚ) : Color :=
  let localT := if t1 < t2 then (t - t1) / (t2 - t1) else 0
  (pyInt ((c1.1 : ℚ) + ((c2.1 : ℚ) - (c1.1 : ℚ)) * localT),
   pyInt ((c1.2.1 : ℚ) + ((c2.2.1 : ℚ) - (c1.2.1 : ℚ)) * localT),
   pyInt ((c1.2.2 : ℚ) + ((c2.2.2 : ℚ) - (c1.2.2 : ℚ)) * localT))

/-- The segment scan of `_build_gradient` (lines 96-107): walk consecutive
keypoint pairs, interpolate inside the first bracketing segment
(`t1 <= t <= t2`, then `break`); if no segment matches, the `for`-`else`
appends the last keypoint's color (`fb`). -/
def segLookup : List (ℚ × Color) → ℚ → Color → Color
  | [], _, fb => fb
  | [_], _, fb => fb
  | (t1, c1) :: (t2, c2) :: rest, t, fb =>
      if t1 ≤ t ∧ t ≤ t2 then interpColor t1 c1 t2 c2 t
      else segLookup ((t2, c2) :: rest) t fb

/-- The last keypoint's color, the `for`-`else` fallback (`keypoints[-1][1]`). -/
def lastColor (kps : List (ℚ × Color)) : Color :=
  match kps.getLast? with
  | some (_, c) => c
  | none => (0, 0, 0)

/-- The first keypoint's color (`keypoints[0].color`). -/
def firstColor (kps : List (ℚ × Color)) : Color :=
  match kps.head? with
  | some (_, c) => c
  | none => (0, 0, 0)

/-- Entry `i` of the 256-entry lookup table (`t = i / 255.0`). -/
def gradientAt (kps : List (ℚ × Color)) (i : ℕ) : Color :=
  segLookup kps ((i : ℚ) / 255) (lastColor kps)

/-- `_build_gradient` (lines 79-108): 256 colors, one per `i in range(256)`. -/
def buildGradient (kps : List (ℚ × Color)) : List Color :=
  (List.range 256).map (gradientAt kps)

/-- The render-time lookup (sonar_pulse.py lines 178-179):
`color_idx = int(min(1.0, max(0.0, t)) * 255)`, then `colors[color_idx]`. -/
def mapColor (kps : List (ℚ × Color)) (t : ℚ) : Color :=
  (buildGradient kps).getD (pyInt (min 1 (max 0 t) * 255)).toNat (0, 0, 0)

/-- A valid keypoint set in the sense of the spec: at least two keypoints,
strictly increasing positions, first at 0, last at 1. -/
def validKeypoints (kps : List (ℚ × Color)) : Prop :=
  2 ≤ kps.length ∧ List.Chain' (fun a b => a.1 < b.1) kps ∧
    kps.head?.map Prod.fst = some 0 ∧ kps.getLast?.map Prod.fst = some 1

/-- The keypoint list hard-coded in `SonarPulse._build_gradient`. -/
def spKeypoints : List (ℚ × Color) :=
  [(0, (255, 30, 30)), (12/100, (255, 80, 0)), (25/100, (255, 160, 0)),
   (38/100, (255, 230, 0)), (50/100, (150, 255, 50)), (62/100, (0, 255, 120)),
   (75/100, (0, 230, 200)), (88/100, (0, 150, 255)), (1, (30, 60, 180))]

/-- The fixed palette of `DepthScanner.__init__` (lines 46-56), blue to red. -/
def dsColors : List (ℚ × ℚ × ℚ) :=
  [(0, 0, 1), (0, 1/2, 1), (0, 1, 1), (0, 1, 1/2), (0, 1, 0),
   (1/2, 1, 0), (1, 1, 0), (1, 1/2, 0), (1, 0, 0)]

/-- The palette interpolation of `DepthScanner.dist_to_color` on the already
clipped `t ∈ [0,1]`: `idx = t * (len(colors) - 1)`, integer part and fraction,
then a linear blend of the two bracketing palette entries. -/
def dsColorOfT (t : ℚ) : ℚ × ℚ × ℚ :=
  let idx := t * 8
  let idxLow := ⌊idx⌋.toNat
  let idxHigh := min (idxLow + 1) 8
  let frac := idx - (idxLow : ℚ)
  let c1 := dsColors.getD idxLow (0, 0, 0)
  let c2 := dsColors.getD idxHigh (0, 0, 0)
  (c1.1 * (1 - frac) + c2.1 * frac,
   c1.2.1 * (1 - frac) + c2.2.1 * frac,
   c1.2.2 * (1 - frac) + c2.2.2 * frac)

/-- `DepthScanner.dist_to_color` (lines 87-100): clip `dist/max_dist` to
`[0,1]` (`np.clip`), then interpolate in the fixed palette. -/
def distToColor (maxd d : ℚ) : ℚ × ℚ × ℚ :=
  dsColorOfT (min (max (d / maxd) 0) 1)

theorem pyInt_intCast (c : ℤ) : pyInt (c : ℚ) = c := by
  rw [pyInt]
  split
  · exact Int.floor_intCast c
  · exact Int.ceil_intCast c

theorem interpColor_left (t1 : ℚ) (c1 : Color) (t2 : ℚ) (c2 : Color) :
    interpColor t1 c1 t2 c2 t1 = c1 := by
  obtain ⟨r, g, b⟩ := c1
  rw [interpColor]
  split
  · simp [pyInt_intCast]
  · simp [pyInt_intCast]

theorem interpColor_right (t1 : ℚ) (c1 : Color) (t2 : ℚ) (c2 : Color)
    (h : t1 < t2) : interpColor t1 c1 t2 c2 t2 = c2 := by
  obtain ⟨r, g, b⟩ := c2
  rw [interpColor]
  rw [if_pos h, div_self (by linarith : t2 - t1 ≠ 0)]
  simp [pyInt_intCast]

/-- In a `<`-chain `a :: l` the head is strictly below the last element. -/
theorem chain_head_lt_getLast (l : List (ℚ × Color)) (hl : l ≠ [])
    (a : ℚ × Color) (hc : List.Chain' (fun x y => x.1 < y.1) (a :: l)) :
    a.1 < (l.getLast hl).1 := by
  induction l generalizing a with
  | nil => exact absurd rfl hl
  | cons b l ih =>
    obtain ⟨hab, hc2⟩ := List.chain'_cons.mp hc
    cases l with
    | nil => simpa using hab
    | cons c l =>
      have hne : (c :: l) ≠ [] := by simp
      rw [List.getLast_cons hne]
      exact lt_trans hab (ih hne b hc2)

/-- The segment scan evaluated at `t = 1` lands in the final segment and
returns the last keypoint's color, for strictly increasing keypoints ending
at 1. -/
theorem segLookup_one (fb : Color) :
    ∀ kps : List (ℚ × Color), List.Chain' (fun x y => x.1 < y.1) kps →
      kps.getLast?.map Prod.fst = some 1 → 2 ≤ kps.length →
      segLookup kps 1 fb = lastColor kps := by
  intro kps
  induction kps with
  | nil => intro _ _ h; simp at h
  | cons a kps ih =>
    intro hc hlast hlen
    cases kps with
    | nil => simp at hlen
    | cons b rest =>
      obtain ⟨ta, ca⟩ := a
      obtain ⟨tb, cb⟩ := b
      obtain ⟨hab, hc2⟩ := List.chain'_cons.mp hc
      simp only at hab
      cases rest with
      | nil =>
        have htb : tb = 1 := by simpa using hlast
        subst htb
        show (if ta ≤ 1 ∧ (1 : ℚ) ≤ 1 then interpColor ta ca 1 cb 1
            else segLookup [((1 : ℚ), cb)] 1 fb) = lastColor [(ta, ca), (1, cb)]
        rw [if_pos ⟨le_of_lt hab, le_refl 1⟩, interpColor_right ta ca 1 cb hab]
        rfl
      | cons c rest2 =>
        have hne : (c :: rest2) ≠ [] := List.cons_ne_nil c rest2
        have hne2 : ((tb, cb) :: c :: rest2) ≠ [] := List.cons_ne_nil _ _
        have hlast2 : ((tb, cb) :: c :: rest2).getLast?.map Prod.fst = some 1 := by
          rwa [List.getLast?_cons_cons] at hlast
        have hgl : (((tb, cb) :: c :: rest2).getLast hne2).1 = 1 := by
          rw [List.getLast?_eq_getLast _ hne2] at hlast2
          simpa using hlast2
        have htb : tb < 1 := by
          have h := chain_head_lt_getLast (c :: rest2) hne (tb, cb) hc2
          rwa [← List.getLast_cons hne, hgl] at h
        show (if ta ≤ 1 ∧ (1 : ℚ) ≤ tb then interpColor ta ca tb cb 1
            else segLookup ((tb, cb) :: c :: rest2) 1 fb) =
          lastColor ((ta, ca) :: (tb, cb) :: c :: rest2)
        rw [if_neg (fun hco => absurd hco.2 (not_le.mpr htb)),
          ih hc2 hlast2 (by simp)]
        rw [lastColor, lastColor, List.getLast?_cons_cons,
          List.getLast?_cons_cons, List.getLast?_cons_cons]

/-- The lookup table entry `i`, for `i < 256`. -/
theorem buildGradient_getD (kps : List (ℚ × Color)) (i : ℕ) (hi : i < 256)
    (d : Color) : (buildGradient kps).getD i d = gradientAt kps i := by
  rw [buildGradient, List.getD_eq_getElem?_getD, List.getElem?_map,
    List.getElem?_range hi]
  rfl

/-- **C8.** For every valid keypoint set (strictly increasing positions,
first at 0, last at 1), the gradient evaluated at normalized input 0 returns
the first keypoint's color and at 1 the last keypoint's color; likewise
`DepthScanner.dist_to_color` returns the first palette color (blue) at
distance 0 and the last (red) at `max_dist`. -/
theorem colormap_endpoints (kps : List (ℚ × Color)) (maxd : ℚ)
    (hv : validKeypoints kps) (hm : 0 < maxd) :
    mapColor kps 0 = firstColor kps ∧ mapColor kps 1 = lastColor kps ∧
    distToColor maxd 0 = (0, 0, 1) ∧ distToColor maxd maxd = (1, 0, 0) := by
  obtain ⟨hlen, hc, hhead, hlast⟩ := hv
  refine ⟨?_, ?_, ?_, ?_⟩
  · have hidx : (pyInt (min 1 (max 0 (0 : ℚ)) * 255)).toNat = 0 := by
      norm_num [pyInt]
    rw [mapColor, hidx, buildGradient_getD kps 0 (by norm_num), gradientAt]
    rw [show ((0 : ℕ) : ℚ) / 255 = 0 by norm_num]
    cases kps with
    | nil => simp at hlen
    | cons a kps2 =>
      cases kps2 with
      | nil => simp at hlen
      | cons b rest =>
        obtain ⟨ta, ca⟩ := a
        obtain ⟨tb, cb⟩ := b
        have hta : ta = 0 := by simpa using hhead
        subst hta
        obtain ⟨hab, _⟩ := List.chain'_cons.mp hc
        simp only at hab
        show (if (0 : ℚ) ≤ 0 ∧ (0 : ℚ) ≤ tb then interpColor 0 ca tb cb 0
            else segLookup ((tb, cb) :: rest) 0 _) =
          firstColor ((0, ca) :: (tb, cb) :: rest)
        rw [if_pos ⟨le_refl 0, le_of_lt hab⟩, interpColor_left 0 ca tb cb]
        rfl
  · have hidx : (pyInt (min 1 (max 0 (1 : ℚ)) * 255)).toNat = 255 := by
      with_unfolding_all rfl
    rw [mapColor, hidx, buildGradient_getD kps 255 (by norm_num), gradientAt]
    rw [show ((255 : ℕ) : ℚ) / 255 = 1 by norm_num]
    exact segLookup_one (lastColor kps) kps hc hlast hlen
  · show dsColorOfT (min (max ((0 : ℚ) / maxd) 0) 1) = (0, 0, 1)
    rw [zero_div]
    with_unfolding_all rfl
  · show dsColorOfT (min (max (maxd / maxd) 0) 1) = (1, 0, 0)
    rw [div_self (ne_of_gt hm)]
    with_unfolding_all rfl

theorem colormap_endpoints_witness :
    validKeypoints spKeypoints ∧
    mapColor spKeypoints 0 = (255, 30, 30) ∧
    mapColor spKeypoints 1 = (30, 60, 180) ∧
    distToColor 200 0 = (0, 0, 1) ∧ distToColor 200 200 = (1, 0, 0) := by
  have hv : validKeypoints spKeypoints := by
    refine ⟨by norm_num [spKeypoints], ?_, ?_, ?_⟩
    · norm_num [spKeypoints, List.chain'_cons]
    · norm_num [spKeypoints]
    · norm_num [spKeypoints]
  have h := colormap_endpoints spKeypoints 200 hv (by norm_num)
  refine ⟨hv, ?_, ?_, h.2.2.1, h.2.2.2⟩
  · rw [h.1]
    with_unfolding_all rfl
  · rw [h.2.1]
    with_unfolding_all rfl

/-! ### Demo environment ray cast (radar.py `_demo_raycast`) -/

/-- A demo obstacle as generated by `_generate_demo_environment` (radar.py
lines 126-135): an axis-aligned rectangle `(x, y, w, h)` or a circle
`(cx, cy, r)`. -/
inductive Wall where
  | rect (x y w h : ℚ)
  | circle (cx cy r : ℚ)
  deriving DecidableEq, Repr

/-- The point-in-obstacle test of `_demo_raycast` at step distance `d` along
the unit direction `(dx, dy)` (`px = dx*dist`, `py = dy*dist`; radar.py lines
151-162): `x <= px <= x + w and y <= py <= y + h` for a rectangle,
`(px - cx)**2 + (py - cy)**2 <= r**2` for a circle. -/
def insideWall (dx dy : ℚ) (d : ℕ) (w : Wall) : Bool :=
  match w with
  | .rect x y w h =>
      decide (x ≤ dx * d ∧ dx * d ≤ x + w ∧ y ≤ dy * d ∧ dy * d ≤ y + h)
  | .circle cx cy r =>
      decide ((dx * d - cx) ^ 2 + (dy * d - cy) ^ 2 ≤ r ^ 2)

/-- The step distances `range(5, int(max_dist), 2)` walked by the search. -/
def stepList (maxDistInt : ℕ) : List ℕ :=
  List.range' 5 ((maxDistInt - 4) / 2) 2

/-- One iteration of the outer wall loop: the inner loop scans the step
distances in ascending order and `break`s at the first hit, which is folded
into `min_dist` (`min_dist = min(min_dist, dist)`); a wall never hit leaves
`min_dist` unchanged. -/
def rayStep (maxDist dx dy : ℚ) (acc : ℚ) (w : Wall) : ℚ :=
  match (stepList ⌊maxDist⌋.toNat).find? (fun d => insideWall dx dy d w) with
  | some d => min acc (d : ℚ)
  | none => acc

/-- The deterministic intersection search of `_demo_raycast` (radar.py lines
143-164): `min_dist` starts at `max_dist` and each wall contributes its first
step hit. `dx, dy` are the direction components `sin(radians(angle))`,
`cos(radians(angle))` — passed explicitly, `math.sin`/`math.cos` being
deterministic functions of the heading. -/
def raySearch (walls : List Wall) (maxDist dx dy : ℚ) : ℚ :=
  walls.foldl (rayStep maxDist dx dy) maxDist

/-- `_demo_raycast` (radar.py lines 137-171): the search, then — only on a hit
(`min_dist < max_dist`) — the Gaussian jitter `noise` is added and the result
clamped by `max(5, min(max_dist, min_dist))`. `noise` is the sampled value of
`random.gauss(0, 2)`, passed explicitly. -/
def demoRaycast (walls : List Wall) (maxDist dx dy noise : ℚ) : ℚ :=
  if raySearch walls maxDist dx dy < maxDist then
    max 5 (min maxDist (raySearch walls maxDist dx dy + noise))
  else raySearch walls maxDist dx dy

/-- The concrete environment of `_generate_demo_environment`: the room
rectangle, two circular obstacles and a box. -/
def demoWalls : List Wall :=
  [.rect (-80) (-60) 160 120, .circle 40 30 20, .circle (-50) (-20) 15,
   .rect (-30) 50 25 30]

theorem mem_stepList_five_le (K d : ℕ) (hd : d ∈ stepList K) : 5 ≤ d := by
  rw [stepList, List.mem_range'] at hd
  obtain ⟨i, _, rfl⟩ := hd
  omega

/-- Fold invariant of the search: the accumulator never rises, and it is
either a step distance (hence `≥ 5`) or still the initial `max_dist`. -/
theorem raySearch_fold_invariant (maxDist dx dy : ℚ) (walls : List Wall) :
    ∀ acc : ℚ, acc ≤ maxDist → (5 ≤ acc ∨ acc = maxDist) →
      List.foldl (rayStep maxDist dx dy) acc walls ≤ maxDist ∧
      (5 ≤ List.foldl (rayStep maxDist dx dy) acc walls ∨
        List.foldl (rayStep maxDist dx dy) acc walls = maxDist) := by
  induction walls with
  | nil => intro acc h1 h2; exact ⟨h1, h2⟩
  | cons w walls ih =>
    intro acc h1 h2
    rw [List.foldl_cons]
    have hstep : rayStep maxDist dx dy acc w ≤ acc ∧
        (5 ≤ rayStep maxDist dx dy acc w ∨
          rayStep maxDist dx dy acc w = maxDist) := by
      rw [rayStep]
      cases hf : (stepList ⌊maxDist⌋.toNat).find?
          (fun d => insideWall dx dy d w) with
      | none => exact ⟨le_refl acc, h2⟩
      | some d =>
        have hd5 : (5 : ℚ) ≤ (d : ℚ) := by
          have := mem_stepList_five_le _ _ (List.mem_of_find?_eq_some hf)
          exact_mod_cast this
        show min acc (d : ℚ) ≤ acc ∧
          (5 ≤ min acc (d : ℚ) ∨ min acc (d : ℚ) = maxDist)
        refine ⟨min_le_left _ _, ?_⟩
        rcases h2 with h5a | hmax
        · exact Or.inl (le_min h5a hd5)
        · subst hmax
          rcases le_total (d : ℚ) acc with hda | had
          · exact Or.inl (by rw [min_eq_right hda]; exact hd5)
          · exact Or.inr (min_eq_left had)
    exact ih _ (hstep.1.trans h1) hstep.2

/-- **C9.** Ray casting is deterministic before noise: with the noise term set
to zero, two casts at the same heading against the same environment return the
same distance, and that distance is exactly the step-wise intersection
search's first-hit result (`max_dist` on a miss). -/
theorem raycast_deterministic (walls : List Wall) (maxDist dx dy n1 n2 : ℚ)
    (h1 : n1 = 0) (h2 : n2 = 0) :
    demoRaycast walls maxDist dx dy n1 = demoRaycast walls maxDist dx dy n2 ∧
    demoRaycast walls maxDist dx dy n1 = raySearch walls maxDist dx dy := by
  subst h1
  subst h2
  refine ⟨rfl, ?_⟩
  rw [demoRaycast]
  by_cases hm : raySearch walls maxDist dx dy < maxDist
  · rw [if_pos hm]
    have hinv := raySearch_fold_invariant maxDist dx dy walls maxDist
      (le_refl _) (Or.inr rfl)
    have h5 : 5 ≤ raySearch walls maxDist dx dy := by
      rcases hinv.2 with h | h
      · exact h
      · rw [raySearch] at hm ⊢
        rw [h] at hm
        exact absurd hm (lt_irrefl _)
    rw [add_zero, min_eq_right (le_of_lt hm), max_eq_right h5]
  · rw [if_neg hm]

theorem raycast_deterministic_witness :
    (demoRaycast demoWalls 200 0 1 0 = demoRaycast demoWalls 200 0 1 0 ∧
      demoRaycast demoWalls 200 0 1 0 = raySearch demoWalls 200 0 1) ∧
    raySearch demoWalls 200 0 1 = 5 :=
  ⟨raycast_deterministic demoWalls 200 0 1 0 0 rfl rfl,
   by with_unfolding_all rfl⟩

/-- **C10 (amended).** For every heading and every noise value the returned
distance lies in `[5, max_dist]` (whenever `max_dist ≥ 5`, as in every
configuration of the program); a cast that hits no obstacle returns exactly
`max_dist`; a cast that hits one returns the clamped noisy distance
`max(5, min(max_dist, hit + noise))` — which can itself saturate at
`max_dist`, so a return value of `max_dist` does not imply a miss. -/
theorem raycast_range_bounds (walls : List Wall) (maxDist dx dy noise : ℚ)
    (h5 : 5 ≤ maxDist) :
    (5 ≤ demoRaycast walls maxDist dx dy noise ∧
      demoRaycast walls maxDist dx dy noise ≤ maxDist) ∧
    (raySearch walls maxDist dx dy = maxDist →
      demoRaycast walls maxDist dx dy noise = maxDist) ∧
    (raySearch walls maxDist dx dy < maxDist →
      demoRaycast walls maxDist dx dy noise =
        max 5 (min maxDist (raySearch walls maxDist dx dy + noise))) := by
  rw [demoRaycast]
  by_cases hm : raySearch walls maxDist dx dy < maxDist
  · rw [if_pos hm]
    refine ⟨⟨le_max_left _ _, max_le h5 (min_le_left _ _)⟩, ?_, fun _ => rfl⟩
    intro he
    rw [he] at hm
    exact absurd hm (lt_irrefl _)
  · rw [if_neg hm]
    have hle := (raySearch_fold_invariant maxDist dx dy walls maxDist
      (le_refl _) (Or.inr rfl)).1
    rw [raySearch] at hm ⊢
    have heq : List.foldl (rayStep maxDist dx dy) maxDist walls = maxDist :=
      le_antisymm hle (not_lt.mp hm)
    exact ⟨⟨by rw [heq]; exact h5, hle⟩, fun _ => heq,
      fun hlt => absurd hlt hm⟩

/-- A single box straight ahead: the search hits it at step distance 91. -/
def cexWalls : List Wall := [.rect (-10) 90 20 20]

theorem raycast_range_bounds_witness :
    (5 ≤ demoRaycast cexWalls 200 0 1 200 ∧
      demoRaycast cexWalls 200 0 1 200 ≤ 200) ∧
    (raySearch cexWalls 200 0 1 = 200 →
      demoRaycast cexWalls 200 0 1 200 = 200) ∧
    (raySearch cexWalls 200 0 1 < 200 →
      demoRaycast cexWalls 200 0 1 200 =
        max 5 (min 200 (raySearch cexWalls 200 0 1 + 200))) :=
  raycast_range_bounds cexWalls 200 0 1 200 (by norm_num)

/-- **C10 (counterexample to the claim as stated).** With the wall
`rect(-10, 90, 20, 20)` straight ahead (`dx = 0`, `dy = 1`,
`max_dist = 200`), the search hits at 91 < 200, yet with noise 200 the
clamped return value is exactly `max_dist = 200`: the cast returns `max_dist`
even though an obstacle was intersected, refuting "equals max_dist exactly
when no obstacle is intersected". -/
theorem raycast_saturation_cex :
    raySearch cexWalls 200 0 1 = 91 ∧ (91 : ℚ) < 200 ∧
    demoRaycast cexWalls 200 0 1 200 = 200 := by
  have hs : raySearch cexWalls 200 0 1 = 91 := by with_unfolding_all rfl
  refine ⟨hs, by norm_num, ?_⟩
  rw [demoRaycast, hs, if_pos (by norm_num)]
  norm_num

end SonarRover
